import Mathlib

/-!
Verification of the Dworek live-object registry and cache subsystem.

This file gives a shallow embedding of the repository's core code:

* `FactoryManager` (src/server/app/live/factory/FactoryManager.js):
  the per-game live registry with `loadFactory`, `load`, `unloadFactory`.
* `GameUserModelManager` (src/server/app/route/ajax/team/deleteTeam.js,
  second file in the bundle): the read-through cache manager with
  `isValidId`, `getGameUserCount`, `getGameUsersCount`, `getTeamUsers`,
  `getTeamGameUsers`, `flushCache`.
* The utility primitives `CallbackLatch`, `MutexLoader` and
  `ModelInstanceManager` are required by the sources but their own files
  are not part of the bundle; they are modelled from the specification
  (spec.md sections 4.1, 4.2, 4.3), as marked on each definition.

External collaborators (MongoDB, Redis, `ObjectId.isValid`) are passed in
as explicit parameters: a database query is a value of type
`Except String β` (error or rows), the fast store read is
`Except String (Option String)` (error, miss, or hit), and readiness is a
`Bool`.  The single-threaded callback flow of each function is embedded as
a pure function from those inputs to the ordered list of callback
invocations it performs, together with observable effects (whether the
authoritative query ran, what was written back to the fast store, ...).
-/

deriving instance DecidableEq for Except

namespace Dworek

/-- Identifiers (Mongo `ObjectId` values) are modelled as strings; the
sources only compare them for equality (`.equals`) and serialize them
(`.toString`). -/
abbrev Id := String

/-! ## Identity cache (`ModelInstanceManager`) -/

/-- Modelled from the spec: the `ModelInstanceManager` required by
`GameUserModelManager` and `FactoryManager` is not part of the source
bundle.  Spec section 4.3 (Identity Cache): a per-entity-type registry
mapping an ID to exactly one live wrapper object.  A wrapper's reference
identity is modelled as a `Nat` allocation token (`nextRef` is the next
fresh token). -/
structure ModelInstanceManager where
  instances : List (Id × Nat)
  nextRef : Nat
deriving DecidableEq

namespace ModelInstanceManager

/-- Look up the registered wrapper token for an ID. -/
def findRef : List (Id × Nat) → Id → Option Nat
  | [], _ => none
  | (i, r) :: rest, id => if i = id then some r else findRef rest id

/-- Modelled from the spec: section 4.3, `create(id)` returns the existing
wrapper for `id` if one exists, otherwise constructs a new wrapper bound
to `id` and registers it before returning. -/
def create (m : ModelInstanceManager) (id : Id) : Nat × ModelInstanceManager :=
  match findRef m.instances id with
  | some r => (r, m)
  | none => (m.nextRef, ⟨m.instances ++ [(id, m.nextRef)], m.nextRef + 1⟩)

/-- Modelled from the spec: section 4.3, `clear(force)` removes all
registered wrappers; `force = true` clears unconditionally.  The
`force = false` liveness check ("refuse wrappers in use") depends on
registry state not modelled here, so that branch conservatively keeps
everything. -/
def clear (m : ModelInstanceManager) (force : Bool) : ModelInstanceManager :=
  if force then ⟨[], m.nextRef⟩ else m

end ModelInstanceManager

/-! ## Live factory registry (`FactoryManager`) -/

/-- A live `Factory` wrapper as far as the registry observes it: the
sources only use `factory.getId()` (via `entry.isFactory(factoryId)` /
`entry.getId().equals(...)`) when managing the loaded list. -/
structure LiveFactory where
  id : Id
deriving DecidableEq

namespace FactoryManager

/-- The outcome of the external collaborators consulted by
`loadFactory`'s work function: the authoritative validity check
(`Core.model.factoryModelManager.isValidFactoryId`) and the owning-game
lookup (`factoryModel.getGame`, observed via `result.getId()`). -/
structure LoadEnv where
  isValidFactoryId : Except String Bool
  gameOfFactory : Except String Id

/-- The registry state used by `loadFactory`: the manager's game and its
list of loaded factories (`this.game`, `this.factories`). -/
structure State where
  gameId : Id
  factories : List LiveFactory
deriving DecidableEq

/-- The work function `loadFactory` hands to the mutex loader
(FactoryManager.js lines 120-163), as a function from the registry state
and the store outcomes to the settled result and the new state:

* validity check errors call back the error;
* an invalid ID calls back `(null, null)`;
* a valid ID creates the model instance, fetches its game; a game lookup
  error calls back the error; a game mismatch calls back `(null, null)`;
* a match constructs the live factory, pushes it onto `this.factories`
  and calls it back. -/
def loadFactoryWork (self : State) (env : LoadEnv) (factoryId : Id) :
    Except String (Option LiveFactory) × State :=
  match env.isValidFactoryId with
  | .error e => (.error e, self)
  | .ok false => (.ok none, self)
  | .ok true =>
    match env.gameOfFactory with
    | .error e => (.error e, self)
    | .ok g =>
      if self.gameId = g then
        let newFactory : LiveFactory := ⟨factoryId⟩
        (.ok (some newFactory), ⟨self.gameId, self.factories ++ [newFactory]⟩)
      else
        (.ok none, self)

/-- The loop body of `unloadFactory` (FactoryManager.js lines 307-327):
JavaScript `Array.prototype.forEach` visits index `k` while `k` is below
the array's current length, and in the body a matching entry is removed
with `splice(k, 1)`, shifting later entries left while the iteration
index still advances. -/
def unloadLoop (targetId : Id) (factories : List LiveFactory) (k : Nat)
    (unloadedAny : Bool) : List LiveFactory × Bool :=
  if h : k < factories.length then
    if (factories.get ⟨k, h⟩).id = targetId then
      unloadLoop targetId (factories.eraseIdx k) (k + 1) true
    else
      unloadLoop targetId factories (k + 1) unloadedAny
  else
    (factories, unloadedAny)
termination_by factories.length - k
decreasing_by
  · have := List.length_eraseIdx_of_lt h
    omega
  · omega

/-- `FactoryManager.prototype.unloadFactory` (lines 307-327): iterate over
the loaded list, splice out entries whose ID equals the given factory's
ID, and return whether anything was removed. -/
def unloadFactory (factories : List LiveFactory) (factory : LiveFactory) :
    List LiveFactory × Bool :=
  unloadLoop factory.id factories 0 false

/-- Does this entry's ID equal the target ID?  (`entry.getId().equals(factory.getId())`.) -/
def matchEntry (targetId : Id) (e : LiveFactory) : Bool := e.id == targetId

/-- Does this entry survive a filter on the target ID? -/
def keepEntry (targetId : Id) (e : LiveFactory) : Bool := e.id != targetId

/-- Structural characterization of `unloadLoop`, used in the proofs: scan
the list one entry at a time; `skip = true` means the previous entry was
just spliced out, so the current entry is kept without being examined
(the `forEach` index already moved past it). -/
def scanSk (targetId : Id) (skip : Bool) : List LiveFactory → List LiveFactory × Bool
  | [] => ([], false)
  | x :: rest =>
    if skip then
      ((x :: (scanSk targetId false rest).1), (scanSk targetId false rest).2)
    else if x.id = targetId then
      ((scanSk targetId true rest).1, true)
    else
      ((x :: (scanSk targetId false rest).1), (scanSk targetId false rest).2)

end FactoryManager

/-! ## Fan-in latch (`CallbackLatch`) -/

/-- Modelled from the spec: the `CallbackLatch` required by the sources
(util/CallbackLatch.js) is not part of the bundle.  Spec section 4.1
(Fan-in Latch): a counting join primitive; `add(n)` increments a pending
counter, `resolve()` decrements it, and a continuation registered via
`then` runs exactly once when the counter reaches zero (immediately if it
is already zero at registration time). -/
structure CallbackLatch where
  pendingCount : Nat
deriving DecidableEq

namespace CallbackLatch

/-- Modelled from the spec: section 4.1, a fresh latch has no pending work. -/
def new : CallbackLatch := ⟨0⟩

/-- Modelled from the spec: section 4.1, `add(n)` increments the pending
counter by `n` (the sources call `latch.add()` for `n = 1`). -/
def add (l : CallbackLatch) (n : Nat) : CallbackLatch := ⟨l.pendingCount + n⟩

/-- Modelled from the spec: section 4.1, `resolve()` decrements the counter. -/
def resolve (l : CallbackLatch) : CallbackLatch := ⟨l.pendingCount - 1⟩

/-- Modelled from the spec: section 4.1, a continuation registered while
the counter is `l.pendingCount` fires exactly when the later resolves
bring the counter to zero: with `laterResolves` subsequent `resolve()`
calls (each decrementing by one), zero is reached iff the registration
count is at most `laterResolves` (immediately, if it was already zero). -/
def thenFires (l : CallbackLatch) (laterResolves : Nat) : Bool :=
  l.pendingCount ≤ laterResolves

end CallbackLatch

/-! ## Single-flight loader (`MutexLoader`) -/

/-- The result type a factory load settles with: an error, or the live
factory (as its ID), or `null` for an invalid / wrong-game factory. -/
abbrev MLResult := Except String (Option Id)

/-- Modelled from the spec: the `MutexLoader` required by
`FactoryManager.loadFactory` (util/MutexLoader.js) is not part of the
bundle.  Spec section 4.2 (Single-Flight Loader): `load(key, work,
callback)` invokes `work` once per key per cycle, queues concurrent
callers, settles them all with the identical result and removes the
in-flight record.  Events of the loader's life are either a caller
arriving (`load`) or the in-flight work settling (`settle`). -/
inductive MLEvent where
  | load (key : Id) (caller : Nat)
  | settle (key : Id) (r : MLResult)

/-- Observable state of the single-flight loader: the in-flight queues
(key to queued caller tokens, in arrival order), the keys for which the
work function was invoked (in order, with multiplicity), and the results
delivered to callers. -/
structure MLState where
  inFlight : List (Id × List Nat)
  invocations : List Id
  delivered : List (Nat × MLResult)

namespace MLState

/-- The queue registered for a key, if the key is in flight. -/
def queueOf : List (Id × List Nat) → Id → Option (List Nat)
  | [], _ => none
  | (k, q) :: rest, key => if k = key then some q else queueOf rest key

/-- Append a caller to the queue of a key. -/
def enqueue : List (Id × List Nat) → Id → Nat → List (Id × List Nat)
  | [], _, _ => []
  | (k, q) :: rest, key, c =>
    if k = key then (k, q ++ [c]) :: rest else (k, q) :: enqueue rest key c

/-- Remove a key's in-flight record. -/
def removeKey (l : List (Id × List Nat)) (key : Id) : List (Id × List Nat) :=
  l.filter (fun p => !(p.1 == key))

/-- Modelled from the spec: section 4.2.  A `load` for a key already in
flight queues the caller without invoking the work function; a `load` for
a free key records the in-flight state and invokes the work function
once.  A `settle` delivers the single result to every queued caller (in
order) and removes the in-flight record unconditionally. -/
def step (s : MLState) : MLEvent → MLState
  | .load key c =>
    match queueOf s.inFlight key with
    | some _ => { s with inFlight := enqueue s.inFlight key c }
    | none =>
      { s with inFlight := s.inFlight ++ [(key, [c])],
               invocations := s.invocations ++ [key] }
  | .settle key r =>
    match queueOf s.inFlight key with
    | none => s
    | some q =>
      { s with inFlight := removeKey s.inFlight key,
               delivered := s.delivered ++ q.map (fun c => (c, r)) }

/-- Run a sequence of loader events. -/
def run (s : MLState) (es : List MLEvent) : MLState := es.foldl step s

end MLState

/-! ## Load-all (`FactoryManager.prototype.load`) -/

namespace FactoryManager

/-- Observable behaviour of one `FactoryManager.load` call: how many
times `latch.add()` ran for an individual factory load, how many times
`latch.resolve()` ran, the external callback invocations (`some err` for
an error, `none` for the success call `callback(null)`), and whether the
latch's completion continuation ever fires. -/
structure LoadAllRun where
  adds : Nat
  resolves : Nat
  externalCallbacks : List (Option String)
  continuationFires : Bool
deriving DecidableEq

/-- Is a per-factory load outcome a success (`err === null`)? -/
def isOkOutcome : Except String (Option Id) → Bool
  | .ok _ => true
  | .error _ => false

/-- The first error among the per-factory load outcomes, in list order
(`calledBack` lets only the first error reach the external callback). -/
def firstError (fids : List Id) (outcomes : Id → Except String (Option Id)) :
    Option String :=
  fids.findSome? (fun f => match outcomes f with | .error e => some e | .ok _ => none)

/-- `FactoryManager.prototype.load` (FactoryManager.js lines 231-280),
given the authoritative factory list (`getFactories`) and each
individual `loadFactory` outcome.  The `forEach` performs `latch.add()`
once per factory before any callback runs; each callback then either
calls `latch.resolve()` (success) or returns after reporting the first
error (error path), and `latch.then(...)` fires `callback(null)` once the
counter reaches zero. -/
def load (getFactories : Except String (List Id))
    (outcomes : Id → Except String (Option Id)) : LoadAllRun :=
  match getFactories with
  | .error e => ⟨0, 0, [some e], false⟩
  | .ok fids =>
    let latch := CallbackLatch.new.add fids.length
    let resolves := (fids.filter (fun f => isOkOutcome (outcomes f))).length
    let fires := latch.thenFires resolves
    ⟨fids.length, resolves,
      (match firstError fids outcomes with | some e => [some e] | none => []) ++
        (if fires then [none] else []),
      fires⟩

end FactoryManager

/-! ## Read-through cache manager (`GameUserModelManager`) -/

namespace GameUserModelManager

/-- `REDIS_KEY_ROOT` in the source. -/
def redisKeyRoot : String := "model:gameuser"

/-- Observable behaviour of one `isValidId` call: whether a fast-store
read was attempted, the ordered callback invocations, whether the
authoritative (MongoDB) query was performed, and the write-back to the
fast store (key and value), if any. -/
structure IsValidRun where
  fastReadAttempted : Bool
  callbacks : List (Except String Bool)
  dbQueried : Bool
  writeBack : Option (String × String)
deriving DecidableEq

/-- `GameUserModelManager.prototype.isValidId` (lines 272-349).

Parameters stand for the external collaborators: `idValid` is
`ObjectId.isValid(id)`, `id` the ID's string form, `ready` is
`RedisUtils.isReady()`, `redis` the fast-store read outcome (error, miss
`none`, or hit `some s`), and `db` the authoritative query outcome (error
or number of rows).

Control flow from the source: an invalid ID calls back `(null, false)`
immediately.  Otherwise, if the fast store is ready a read is started; a
read error or a miss only resolves the internal latch, while a hit calls
back `result === '1'`.  The MongoDB query is launched unconditionally at
the top level of the function (it is *not* wrapped in `latch.then`), so
it always runs and always calls back its own result; on success the
existence flag is written back to the fast store. -/
def isValidId (idValid : Bool) (id : String) (ready : Bool)
    (redis : Except String (Option String)) (db : Except String Nat) : IsValidRun :=
  if idValid = false then
    ⟨false, [.ok false], false, none⟩
  else
    let key := redisKeyRoot ++ ":" ++ id ++ ":exists"
    let redisCbs : List (Except String Bool) :=
      if ready then
        match redis with
        | .error _ => []
        | .ok none => []
        | .ok (some s) => [.ok (s == "1")]
      else []
    match db with
    | .error e => ⟨ready, redisCbs ++ [.error e], true, none⟩
    | .ok n =>
      ⟨ready, redisCbs ++ [.ok (decide (n > 0))], true,
        if ready then some (key, if n > 0 then "1" else "0") else none⟩

/-- The recognized filter options of `getGameUserCount` / `getGameUsers`
after merging with the defaults (lines 408-429): tri-state boolean
filters and an optional user constraint (the user as its hex ID). -/
structure CountOptions where
  players : Option Bool
  spectators : Option Bool
  specials : Option Bool
  requested : Option Bool
  user : Option Id
deriving DecidableEq

/-- The normalization step of `getGameUserCount` (lines 434-439): when
`options.requested` is set and true, `players`, `spectators` and
`specials` are all forced to `false`. -/
def normalizeOptions (o : CountOptions) : CountOptions :=
  if o.requested = some true then
    { o with players := some false, spectators := some false, specials := some false }
  else o

/-- Serialization of one tri-state filter in the cache key:
`'1'`, `'0'`, or `'?'` for undefined. -/
def optBoolStr : Option Bool → String
  | some true => "1"
  | some false => "0"
  | none => "?"

/-- The cache key of `getGameUserCount` (lines 442-447), computed from
the (already normalized) options. -/
def countCacheKey (gameIdHex : String) (o : CountOptions) : String :=
  redisKeyRoot ++ ":getGamePlayerCount:" ++ gameIdHex ++ ":" ++
    optBoolStr o.players ++ "," ++ optBoolStr o.spectators ++ "," ++
    optBoolStr o.specials ++ "," ++ optBoolStr o.requested ++
    (match o.user with | some u => ":user," ++ u | none => "") ++ ":count"

/-- The `team_id` constraint in the MongoDB query: `{$ne: null}` for
players, `null` for non-players. -/
inductive TeamIdCond where
  | neNull
  | isNull
deriving DecidableEq

/-- The MongoDB query object built by `getGameUserCount` (lines 480-504):
the game ID, the `$or` clause added when `requested` is exactly `false`,
and the per-filter field constraints. -/
structure CountQuery where
  game_id : Id
  orRequestedFalse : Bool
  team_id : Option TeamIdCond
  is_spectator : Option Bool
  is_special : Option Bool
  user_id : Option Id
deriving DecidableEq

/-- Build the query object from the (already normalized) options, as the
source does after `latch.then` (lines 480-504). -/
def buildCountQuery (gameId : Id) (o : CountOptions) : CountQuery :=
  { game_id := gameId
    orRequestedFalse := o.requested = some false
    team_id := o.players.map (fun b => if b then TeamIdCond.neNull else TeamIdCond.isNull)
    is_spectator := o.spectators
    is_special := o.specials
    user_id := o.user }

/-- The cache key `getGameUserCount` uses for a given raw options object:
normalization happens before the key is computed (lines 429-447). -/
def getGameUserCountKey (gameIdHex : String) (o : CountOptions) : String :=
  countCacheKey gameIdHex (normalizeOptions o)

/-- The authoritative query `getGameUserCount` runs for a given raw
options object: normalization happens before the query is built. -/
def getGameUserCountQuery (gameId : Id) (o : CountOptions) : CountQuery :=
  buildCountQuery gameId (normalizeOptions o)

/-- One game-user row as projected by `getGameUsersCount`
(`team_id`, `is_special`, `is_spectator`; lines 615-619).  A missing or
null `team_id` is `none`. -/
structure GameUserRecord where
  team_id : Option Id
  is_special : Bool
  is_spectator : Bool
deriving DecidableEq

/-- The aggregate object of `getGameUsersCount` (lines 558-565). -/
structure GameUsersState where
  total : Nat
  totalAccepted : Nat
  players : Nat
  specials : Nat
  spectators : Nat
  requested : Nat
deriving DecidableEq

/-- Is this game user counted as `requested` (no team, not special, not
spectator; line 644)? -/
def isRequestedUser (u : GameUserRecord) : Bool :=
  u.team_id == none && !u.is_special && !u.is_spectator

/-- Does this game user have a team (`team_id` neither null nor
undefined; line 636)? -/
def hasTeam (u : GameUserRecord) : Bool := u.team_id != none

/-- The loop body of `getGameUsersCount`'s authoritative path
(lines 631-648), one row at a time. -/
def countStep (s : GameUsersState) (u : GameUserRecord) : GameUsersState :=
  let s := { s with total := s.total + 1 }
  let s := if u.team_id ≠ none then { s with players := s.players + 1 } else s
  let s := if u.is_special then { s with specials := s.specials + 1 } else s
  let s := if u.is_spectator then { s with spectators := s.spectators + 1 } else s
  if u.team_id = none ∧ ¬u.is_special ∧ ¬u.is_spectator then
    { s with requested := s.requested + 1 }
  else
    { s with totalAccepted := s.totalAccepted + 1 }

/-- The result object `getGameUsersCount` produces from the authoritative
store (lines 608-651): fold the counting loop over the returned rows,
starting from the all-zero base object. -/
def getGameUsersCountFromDb (data : List GameUserRecord) : GameUsersState :=
  data.foldl countStep ⟨0, 0, 0, 0, 0, 0⟩

/-- Observable behaviour of one `getTeamUsers` / `getTeamGameUsers` call:
whether a fast-store read was attempted, the callback invocations
(`ok none` models the bare `callback(null)` for an invalid team ID,
`ok (some ids)` a delivered list), and the fast-store write-back. -/
structure TeamUsersRun where
  fastReadAttempted : Bool
  callbacks : List (Except String (Option (List Id)))
  writeBack : Option (String × String)
deriving DecidableEq

/-- `GameUserModelManager.prototype.getTeamUsers` (lines 1248-1367).
`teamValid` stands for the ID validity test at entry, `team` is the team
ID string, `ready` is `RedisUtils.isReady()`, and `db` the authoritative
query outcome (the `user_id` values of the matching rows).

The fast-store read branch is guarded by `RedisUtils.isReady() && false`
in the source, so it is never entered; the internal latch therefore has
nothing pending and the MongoDB query always runs.  On success the
comma-joined ID list is written back to the fast store when it is
ready. -/
def getTeamUsers (teamValid : Bool) (team : Id) (ready : Bool)
    (db : Except String (List Id)) : TeamUsersRun :=
  if teamValid = false then
    ⟨false, [.ok none], none⟩
  else
    let key := redisKeyRoot ++ ":getTeamUsers:" ++ team
    let fastRead := ready && false
    match db with
    | .error e => ⟨fastRead, [.error e], none⟩
    | .ok userIds =>
      ⟨fastRead, [.ok (some userIds)],
        if ready then some (key, String.intercalate "," userIds) else none⟩

/-- `GameUserModelManager.prototype.getTeamGameUsers` (lines 1114-1233):
identical staging to `getTeamUsers` — the fast-store read branch is
guarded by `RedisUtils.isReady() && false` — with its own cache key and
the `_id` projection. -/
def getTeamGameUsers (teamValid : Bool) (team : Id) (ready : Bool)
    (db : Except String (List Id)) : TeamUsersRun :=
  if teamValid = false then
    ⟨false, [.ok none], none⟩
  else
    let key := redisKeyRoot ++ ":getTeamGameUsers:" ++ team
    let fastRead := ready && false
    match db with
    | .error e => ⟨fastRead, [.error e], none⟩
    | .ok gameUserIds =>
      ⟨fastRead, [.ok (some gameUserIds)],
        if ready then some (key, String.intercalate "," gameUserIds) else none⟩

/-- `GameUserModelManager.prototype.flushCache` (lines 1478-1506), given
the model-instance manager and the outcome of the wildcard fast-store
delete (`RedisUtils.flushKeys`, error or deleted-key count).  A flush
error is called back directly (`callback(err)`); on success the latch
resolves and the completion calls back `null`.  The instance manager is
cleared with `clear(true)` either way. -/
def flushCache (m : ModelInstanceManager) (flushResult : Except String Nat) :
    List (Except String Unit) × ModelInstanceManager :=
  (match flushResult with
    | .error e => [.error e]
    | .ok _ => [.ok ()],
   m.clear true)

end GameUserModelManager

/-- Is an `Except` value a success? -/
def exceptIsOk : Except String α → Bool
  | .ok _ => true
  | .error _ => false

/-! ## Proofs -/

namespace ModelInstanceManager

theorem findRef_append_self {base : List (Id × Nat)} {id : Id} {r : Nat}
    (h : findRef base id = none) : findRef (base ++ [(id, r)]) id = some r := by
  induction base with
  | nil => simp [findRef]
  | cons p rest ih =>
    rw [findRef] at h
    by_cases hp : p.1 = id
    · simp [hp] at h
    · cases p
      simp_all [findRef]

theorem findRef_after_create (m : ModelInstanceManager) (id : Id) :
    findRef (m.create id).2.instances id = some (m.create id).1 := by
  unfold create
  cases h : findRef m.instances id with
  | some r => simpa using h
  | none => simpa using findRef_append_self h

theorem create_of_findRef (m : ModelInstanceManager) (id : Id) (r : Nat)
    (h : findRef m.instances id = some r) : m.create id = (r, m) := by
  unfold create
  rw [h]

end ModelInstanceManager

/-- C2: for any entity type and any ID, two calls to the instance
manager's `create(id)` with no intervening `clear` return the same
wrapper object by reference equality (the same allocation token, and the
second call does not change the registry), so a mutation made through the
wrapper obtained by one call is visible through the wrapper obtained by
the other (updating a heap at the first token is observed when reading at
the second token). -/
theorem instanceManager_create_identity (m : ModelInstanceManager) (id : Id) :
    ((m.create id).2.create id).1 = (m.create id).1 ∧
    ((m.create id).2.create id).2 = (m.create id).2 ∧
    ∀ (heap : Nat → Int) (v : Int),
      Function.update heap (m.create id).1 v (((m.create id).2.create id).1) = v := by
  have h2 : (m.create id).2.create id = ((m.create id).1, (m.create id).2) :=
    ModelInstanceManager.create_of_findRef _ id _
      (ModelInstanceManager.findRef_after_create m id)
  refine ⟨by rw [h2], by rw [h2], ?_⟩
  intro heap v
  rw [h2]
  simp [Function.update_same]

/-- C3: for every factory ID that is valid in the authoritative store but
whose owning game differs from the game of the manager on which
`loadFactory` is called, the work function settles with a null result and
a null error (`Except.ok none`, not an error), and the registry state —
in particular the loaded factories list — is unchanged. -/
theorem loadFactory_game_mismatch_null (self : FactoryManager.State)
    (env : FactoryManager.LoadEnv) (fid : Id) (g2 : Id)
    (hvalid : env.isValidFactoryId = Except.ok true)
    (hgame : env.gameOfFactory = Except.ok g2)
    (hne : g2 ≠ self.gameId) :
    FactoryManager.loadFactoryWork self env fid = (Except.ok none, self) := by
  unfold FactoryManager.loadFactoryWork
  rw [hvalid, hgame]
  have hne' : ¬ (self.gameId = g2) := fun h => hne h.symm
  simp [hne']

theorem loadFactory_game_mismatch_null_witness :
    ((Except.ok true : Except String Bool) = Except.ok true ∧
      (Except.ok "g2" : Except String Id) = Except.ok "g2" ∧
      ("g2" : Id) ≠ ("g1" : Id)) ∧
    FactoryManager.loadFactoryWork ⟨"g1", []⟩ ⟨Except.ok true, Except.ok "g2"⟩ "f1" =
      (Except.ok none, ⟨"g1", []⟩) :=
  ⟨⟨rfl, rfl, by decide⟩,
    loadFactory_game_mismatch_null ⟨"g1", []⟩ ⟨Except.ok true, Except.ok "g2"⟩ "f1" "g2"
      rfl rfl (by decide)⟩

/-- C4: the claim says every `latch.add()` in `FactoryManager.load` is
matched by exactly one `latch.resolve()`, including on the error path.
The code violates this: the per-factory callback returns after reporting
an error without resolving the latch.  At the failing input — a game with
one factory whose individual load errors — the run performs one `add`,
zero `resolve`s, the external callback receives the error, and the
latch's completion continuation never fires. -/
theorem load_error_path_skips_latch_resolve :
    FactoryManager.load (Except.ok ["f1"]) (fun _ => Except.error "database error") =
      ⟨1, 0, [some "database error"], false⟩ := by
  rfl

/-- C5: the claim says a well-formed fast-store hit is returned and the
authoritative query is then not performed, the callback firing exactly
once.  The code violates this: `isValidId` launches the MongoDB query
unconditionally (it is not staged behind `latch.then`), so at the failing
input — fast store ready, a well-formed hit `'1'`, a successful
authoritative query — the authoritative query still runs and the caller's
callback is invoked twice (once with the cached result, once with the
database result). -/
theorem isValidId_hit_double_callback :
    GameUserModelManager.isValidId true "aabbccddeeff001122334455" true
        (Except.ok (some "1")) (Except.ok 1) =
      ⟨true, [Except.ok true, Except.ok true], true,
        some ("model:gameuser:aabbccddeeff001122334455:exists", "1")⟩ := by
  rfl

/-- C6 counterexample: the claim says a fast-store error is never fatal
to any operation of the manager, including `flushCache`, and that only
authoritative-store errors reach the caller's callback.  But when the
wildcard fast-store delete errors, `flushCache` calls that fast-store
error back directly. -/
theorem flushCache_propagates_fast_store_error :
    (GameUserModelManager.flushCache ⟨[], 0⟩ (Except.error "redis connection error")).1 =
      [Except.error "redis connection error"] := by
  rfl

/-- C6 amended: fast-store errors are non-fatal for the manager's
read-through query operations — a fast-store read error degrades to
exactly the behaviour of a fast-store miss, and when the authoritative
query succeeds no error at all is called back (`isValidId` shown as the
read operation named by the claim) — but `flushCache` is the exception:
it propagates a fast-store flush error to its callback. -/
theorem fast_store_errors_nonfatal_except_flushCache :
    (∀ (idValid : Bool) (id : String) (ready : Bool)
        (redis : Except String (Option String)) (n : Nat),
      ((GameUserModelManager.isValidId idValid id ready redis (Except.ok n)).callbacks.all
        exceptIsOk) = true) ∧
    (∀ (idValid : Bool) (id : String) (e : String) (db : Except String Nat),
      GameUserModelManager.isValidId idValid id true (Except.error e) db =
        GameUserModelManager.isValidId idValid id true (Except.ok none) db) ∧
    (∀ (m : ModelInstanceManager) (e : String),
      (GameUserModelManager.flushCache m (Except.error e)).1 = [Except.error e]) := by
  refine ⟨?_, ?_, ?_⟩
  · intro idValid id ready redis n
    cases idValid with
    | false => simp [GameUserModelManager.isValidId, exceptIsOk]
    | true =>
      cases ready with
      | false => simp [GameUserModelManager.isValidId, exceptIsOk]
      | true =>
        rcases redis with e | os
        · simp [GameUserModelManager.isValidId, exceptIsOk]
        · cases os <;> simp [GameUserModelManager.isValidId, exceptIsOk]
  · intro idValid id e db
    cases idValid <;> simp [GameUserModelManager.isValidId]
  · intro m e
    rfl

/-- C7: `getGameUserCount` normalizes its filter options before the cache
key or the query is built — `requested = true` forces `players`,
`spectators` and `specials` to `false` — and both the cache key and the
authoritative query are computed from the game ID and the normalized
recognized filter fields, so any two option objects that are equivalent
after normalization produce the same cache key and the same query. -/
theorem getGameUserCount_normalized_key_query
    (o1 o2 : GameUserModelManager.CountOptions) (gameIdHex gameId : Id)
    (h : GameUserModelManager.normalizeOptions o1 =
      GameUserModelManager.normalizeOptions o2) :
    (o1.requested = some true →
      (GameUserModelManager.normalizeOptions o1).players = some false ∧
      (GameUserModelManager.normalizeOptions o1).spectators = some false ∧
      (GameUserModelManager.normalizeOptions o1).specials = some false ∧
      (GameUserModelManager.normalizeOptions o1).requested = some true) ∧
    GameUserModelManager.getGameUserCountKey gameIdHex o1 =
      GameUserModelManager.getGameUserCountKey gameIdHex o2 ∧
    GameUserModelManager.getGameUserCountQuery gameId o1 =
      GameUserModelManager.getGameUserCountQuery gameId o2 := by
  refine ⟨?_, ?_, ?_⟩
  · intro hr
    simp [GameUserModelManager.normalizeOptions, hr]
  · unfold GameUserModelManager.getGameUserCountKey
    rw [h]
  · unfold GameUserModelManager.getGameUserCountQuery
    rw [h]

theorem getGameUserCount_normalized_key_query_witness :
    (GameUserModelManager.normalizeOptions
        ⟨some true, some true, some true, some true, none⟩ =
      GameUserModelManager.normalizeOptions
        ⟨some false, some false, some false, some true, none⟩ ∧
      (⟨some true, some true, some true, some true, none⟩ :
        GameUserModelManager.CountOptions).requested = some true) ∧
    GameUserModelManager.getGameUserCountKey "aabbccddeeff001122334455"
        ⟨some true, some true, some true, some true, none⟩ =
      GameUserModelManager.getGameUserCountKey "aabbccddeeff001122334455"
        ⟨some false, some false, some false, some true, none⟩ ∧
    GameUserModelManager.getGameUserCountQuery "g1"
        ⟨some true, some true, some true, some true, none⟩ =
      GameUserModelManager.getGameUserCountQuery "g1"
        ⟨some false, some false, some false, some true, none⟩ :=
  ⟨⟨by decide, rfl⟩,
    (getGameUserCount_normalized_key_query
      ⟨some true, some true, some true, some true, none⟩
      ⟨some false, some false, some false, some true, none⟩
      "aabbccddeeff001122334455" "g1" (by decide)).2⟩

/-- C8 counterexample: the claim says every read-through query operation
attempts a fast-store read when the fast store is ready, in particular
`getTeamUsers`.  But the read branch of `getTeamUsers` is guarded by
`RedisUtils.isReady() && false`, so even with the fast store ready and a
successful query it never attempts the fast-store read — while it still
writes the result back under its cache key. -/
theorem getTeamUsers_never_reads_fast_store :
    (GameUserModelManager.getTeamUsers true "aabbccddeeff001122334455" true
        (Except.ok ["u1", "u2"])).fastReadAttempted = false ∧
    (GameUserModelManager.getTeamUsers true "aabbccddeeff001122334455" true
        (Except.ok ["u1", "u2"])).writeBack =
      some ("model:gameuser:getTeamUsers:aabbccddeeff001122334455", "u1,u2") :=
  ⟨rfl, rfl⟩

/-- C8 amended: `getTeamUsers` and `getTeamGameUsers` never attempt a
fast-store read (their read branch is disabled by an `&& false` guard),
although after a successful authoritative query they still write the
comma-joined ID list back to the fast store under their operation's cache
key with a TTL; the other read-through operations do attempt a fast-store
read whenever the fast store is ready (`isValidId` shown). -/
theorem teamUsers_fast_read_disabled_write_back :
    (∀ (team : Id) (ready : Bool) (db : Except String (List Id)),
      (GameUserModelManager.getTeamUsers true team ready db).fastReadAttempted = false) ∧
    (∀ (team : Id) (users : List Id),
      (GameUserModelManager.getTeamUsers true team true (Except.ok users)).writeBack =
        some (GameUserModelManager.redisKeyRoot ++ ":getTeamUsers:" ++ team,
          String.intercalate "," users)) ∧
    (∀ (team : Id) (ready : Bool) (db : Except String (List Id)),
      (GameUserModelManager.getTeamGameUsers true team ready db).fastReadAttempted = false) ∧
    (∀ (team : Id) (gameUserIds : List Id),
      (GameUserModelManager.getTeamGameUsers true team true
          (Except.ok gameUserIds)).writeBack =
        some (GameUserModelManager.redisKeyRoot ++ ":getTeamGameUsers:" ++ team,
          String.intercalate "," gameUserIds)) ∧
    (∀ (id : String) (redis : Except String (Option String)) (db : Except String Nat),
      (GameUserModelManager.isValidId true id true redis db).fastReadAttempted = true) := by
  refine ⟨?_, ?_, ?_, ?_, ?_⟩
  · intro team ready db
    cases db <;> simp [GameUserModelManager.getTeamUsers]
  · intro team users
    simp [GameUserModelManager.getTeamUsers]
  · intro team ready db
    cases db <;> simp [GameUserModelManager.getTeamGameUsers]
  · intro team gameUserIds
    simp [GameUserModelManager.getTeamGameUsers]
  · intro id redis db
    cases db <;> simp [GameUserModelManager.isValidId]

namespace GameUserModelManager

theorem length_filter_split (p : α → Bool) (l : List α) :
    (l.filter p).length + (l.filter (fun a => !p a)).length = l.length := by
  induction l with
  | nil => simp
  | cons a rest ih =>
    by_cases h : p a = true <;> simp [List.filter_cons, h] <;> omega

theorem foldl_countStep (data : List GameUserRecord) :
    ∀ s : GameUsersState,
      data.foldl countStep s =
        ⟨s.total + data.length,
          s.totalAccepted + (data.filter (fun u => !isRequestedUser u)).length,
          s.players + (data.filter hasTeam).length,
          s.specials + (data.filter (fun u => u.is_special)).length,
          s.spectators + (data.filter (fun u => u.is_spectator)).length,
          s.requested + (data.filter isRequestedUser).length⟩ := by
  induction data with
  | nil => intro s; simp
  | cons u rest ih =>
    intro s
    rw [List.foldl_cons, ih]
    rcases u with ⟨t, sp, spec⟩
    rcases t with _ | a <;> cases sp <;> cases spec <;>
      simp [countStep, isRequestedUser, hasTeam, List.filter_cons] <;>
      omega

end GameUserModelManager

/-- C10: every result object produced by `getGameUsersCount` from the
authoritative store satisfies `total = totalAccepted + requested`, where
a game user is counted as `requested` exactly when they have no team,
are not special and are not spectator, and in `totalAccepted` otherwise;
`players`, `specials` and `spectators` each count the users with the
corresponding flag. -/
theorem getGameUsersCount_totals_invariant (data : List GameUserModelManager.GameUserRecord) :
    (GameUserModelManager.getGameUsersCountFromDb data).total =
      (GameUserModelManager.getGameUsersCountFromDb data).totalAccepted +
        (GameUserModelManager.getGameUsersCountFromDb data).requested ∧
    (GameUserModelManager.getGameUsersCountFromDb data).requested =
      (data.filter GameUserModelManager.isRequestedUser).length ∧
    (GameUserModelManager.getGameUsersCountFromDb data).totalAccepted =
      (data.filter (fun u => !GameUserModelManager.isRequestedUser u)).length ∧
    (GameUserModelManager.getGameUsersCountFromDb data).players =
      (data.filter GameUserModelManager.hasTeam).length ∧
    (GameUserModelManager.getGameUsersCountFromDb data).specials =
      (data.filter (fun u => u.is_special)).length ∧
    (GameUserModelManager.getGameUsersCountFromDb data).spectators =
      (data.filter (fun u => u.is_spectator)).length := by
  unfold GameUserModelManager.getGameUsersCountFromDb
  rw [GameUserModelManager.foldl_countStep data ⟨0, 0, 0, 0, 0, 0⟩]
  have hsplit := GameUserModelManager.length_filter_split
    GameUserModelManager.isRequestedUser data
  dsimp only
  refine ⟨by omega, by omega, by omega, by omega, by omega, by omega⟩

namespace FactoryManager

theorem scanSk_cons_skip (targetId : Id) (x : LiveFactory) (rest : List LiveFactory) :
    scanSk targetId true (x :: rest) =
      (x :: (scanSk targetId false rest).1, (scanSk targetId false rest).2) := by
  simp [scanSk]

theorem scanSk_cons_match (targetId : Id) {x : LiveFactory} (rest : List LiveFactory)
    (h : x.id = targetId) :
    scanSk targetId false (x :: rest) = ((scanSk targetId true rest).1, true) := by
  simp [scanSk, h]

theorem scanSk_cons_nomatch (targetId : Id) {x : LiveFactory} (rest : List LiveFactory)
    (h : ¬ x.id = targetId) :
    scanSk targetId false (x :: rest) =
      (x :: (scanSk targetId false rest).1, (scanSk targetId false rest).2) := by
  simp [scanSk, h]

theorem scanSk_true_take_drop (targetId : Id) (rest : List LiveFactory) :
    (scanSk targetId true rest).1 =
      rest.take 1 ++ (scanSk targetId false (rest.drop 1)).1 := by
  cases rest <;> simp [scanSk]

theorem scanSk_true_flag (targetId : Id) (rest : List LiveFactory) :
    (scanSk targetId true rest).2 = (scanSk targetId false (rest.drop 1)).2 := by
  cases rest <;> simp [scanSk]

theorem unloadLoop_eq_scanSk (targetId : Id) :
    ∀ (n : Nat) (l : List LiveFactory) (k : Nat) (flag : Bool), l.length - k = n →
      unloadLoop targetId l k flag =
        (l.take k ++ (scanSk targetId false (l.drop k)).1,
          flag || (scanSk targetId false (l.drop k)).2) := by
  intro n
  induction n using Nat.strong_induction_on with
  | _ n ih =>
    intro l k flag hn
    by_cases hk : k < l.length
    · have hdrop : l.drop k = l[k] :: l.drop (k + 1) := List.drop_eq_getElem_cons hk
      rw [unloadLoop]
      simp only [hk, dif_pos, List.get_eq_getElem]
      by_cases hm : l[k].id = targetId
      · -- matching entry: it is spliced out and the next entry is skipped
        simp only [hm, if_pos]
        have hlt : (l.eraseIdx k).length - (k + 1) < n := by
          have := List.length_eraseIdx_of_lt hk
          omega
        rw [ih _ hlt (l.eraseIdx k) (k + 1) true rfl]
        have herase : l.eraseIdx k = l.take k ++ l.drop (k + 1) :=
          List.eraseIdx_eq_take_drop_succ l k
        have hlen : (l.take k).length = k := by
          rw [List.length_take]
          exact Nat.min_eq_left (Nat.le_of_lt hk)
        have htake : (l.eraseIdx k).take (k + 1) =
            l.take k ++ (l.drop (k + 1)).take 1 := by
          rw [herase, List.take_append_eq_append_take, hlen, List.take_take]
          congr 1
          · congr 1
            exact Nat.min_eq_right (Nat.le_succ k)
          · congr 1
            omega
        have hdrop2 : (l.eraseIdx k).drop (k + 1) = (l.drop (k + 1)).drop 1 := by
          rw [herase, List.drop_append_eq_append_drop, hlen]
          have : (l.take k).drop (k + 1) = [] :=
            List.drop_eq_nil_of_le (by omega)
          rw [this]
          simp only [List.nil_append]
          congr 1
          omega
        rw [htake, hdrop2, hdrop, scanSk_cons_match targetId _ hm]
        rw [scanSk_true_take_drop]
        simp
      · -- non-matching entry: kept, iteration advances
        simp only [hm, if_neg, not_false_iff]
        have hlt : l.length - (k + 1) < n := by omega
        rw [ih _ hlt l (k + 1) flag rfl]
        have htake : l.take (k + 1) = l.take k ++ [l[k]] := by
          rw [List.take_succ, List.getElem?_eq_getElem hk]
          rfl
        rw [htake, hdrop, scanSk_cons_nomatch targetId _ hm]
        rw [List.append_assoc]
        rfl
    · rw [unloadLoop]
      simp only [hk, dif_neg, not_false_iff]
      have hle : l.length ≤ k := Nat.le_of_not_lt hk
      rw [List.drop_eq_nil_of_le hle, List.take_of_length_le hle]
      simp [scanSk]

theorem unloadFactory_eq_scanSk (l : List LiveFactory) (f : LiveFactory) :
    unloadFactory l f = scanSk f.id false l := by
  unfold unloadFactory
  rw [unloadLoop_eq_scanSk f.id (l.length - 0) l 0 false rfl]
  simp

theorem scanSk_sublist (targetId : Id) (l : List LiveFactory) :
    ∀ skip, ((scanSk targetId skip l).1).Sublist l := by
  induction l with
  | nil => intro skip; simp [scanSk]
  | cons x rest ih =>
    intro skip
    cases skip
    · by_cases h : x.id = targetId
      · rw [scanSk_cons_match targetId rest h]
        exact (ih true).cons x
      · rw [scanSk_cons_nomatch targetId rest h]
        exact (ih false).cons₂ x
    · rw [scanSk_cons_skip targetId x rest]
      exact (ih false).cons₂ x

theorem scanSk_filter (targetId : Id) (l : List LiveFactory) :
    ∀ skip, (scanSk targetId skip l).1.filter (keepEntry targetId) =
      l.filter (keepEntry targetId) := by
  induction l with
  | nil => intro skip; simp [scanSk]
  | cons x rest ih =>
    intro skip
    cases skip
    · by_cases h : x.id = targetId
      · rw [scanSk_cons_match targetId rest h]
        have hx : keepEntry targetId x = false := by simp [keepEntry, h]
        simp only [List.filter_cons, hx]
        simpa using ih true
      · rw [scanSk_cons_nomatch targetId rest h]
        have hx : keepEntry targetId x = true := by simp [keepEntry, h]
        simp only [List.filter_cons, hx, if_pos]
        simpa using ih false
    · rw [scanSk_cons_skip targetId x rest]
      simp only [List.filter_cons]
      rw [ih false]

theorem scanSk_flag (targetId : Id) (l : List LiveFactory) :
    (scanSk targetId false l).2 = l.any (matchEntry targetId) ∧
    (scanSk targetId true l).2 = (l.drop 1).any (matchEntry targetId) := by
  induction l with
  | nil => simp [scanSk]
  | cons x rest ih =>
    constructor
    · by_cases h : x.id = targetId
      · rw [scanSk_cons_match targetId rest h]
        simp [List.any_cons, matchEntry, h]
      · rw [scanSk_cons_nomatch targetId rest h]
        simp [List.any_cons, matchEntry, h, ih.1]
    · rw [scanSk_cons_skip targetId x rest]
      simpa using ih.1

theorem scanSk_all_keep (targetId : Id) (l : List LiveFactory)
    (h : ∀ e ∈ l, keepEntry targetId e = true) :
    ∀ skip, scanSk targetId skip l = (l, false) := by
  induction l with
  | nil => intro skip; simp [scanSk]
  | cons x rest ih =>
    intro skip
    have hx : ¬ x.id = targetId := by
      have := h x (by simp)
      simpa [keepEntry] using this
    have hr : ∀ e ∈ rest, keepEntry targetId e = true :=
      fun e he => h e (by simp [he])
    cases skip
    · rw [scanSk_cons_nomatch targetId rest hx, ih hr false]
    · rw [scanSk_cons_skip targetId x rest, ih hr false]

theorem scanSk_single (targetId : Id) (l : List LiveFactory)
    (h : l.countP (matchEntry targetId) ≤ 1) :
    (scanSk targetId false l).1 = l.filter (keepEntry targetId) := by
  induction l with
  | nil => simp [scanSk]
  | cons x rest ih =>
    by_cases hx : x.id = targetId
    · have hcx : matchEntry targetId x = true := by simp [matchEntry, hx]
      have hc : rest.countP (matchEntry targetId) = 0 := by
        have := List.countP_cons_of_pos (matchEntry targetId) rest hcx
        omega
      have hall : ∀ e ∈ rest, keepEntry targetId e = true := by
        intro e he
        have := List.countP_eq_zero.mp hc e he
        simpa [matchEntry, keepEntry] using this
      rw [scanSk_cons_match targetId rest hx,
        scanSk_all_keep targetId rest hall true]
      have hkx : keepEntry targetId x = false := by simp [keepEntry, hx]
      simp only [List.filter_cons, hkx]
      simp [List.filter_eq_self.mpr hall]
    · have hcx : ¬ matchEntry targetId x = true := by simp [matchEntry, hx]
      have h' : rest.countP (matchEntry targetId) ≤ 1 := by
        have := List.countP_cons_of_neg (matchEntry targetId) rest hcx
        omega
      rw [scanSk_cons_nomatch targetId rest hx, ih h']
      have hkx : keepEntry targetId x = true := by simp [keepEntry, hx]
      simp [List.filter_cons, hkx]

end FactoryManager

/-- C9 counterexample: the claim says `unloadFactory` removes every entry
whose ID equals the given factory's ID.  But the `forEach` + `splice`
loop skips the entry that shifts into the spliced position: with two
adjacent entries of the same ID, the second one survives (the call still
returns `true`). -/
theorem unloadFactory_adjacent_duplicate_survives :
    FactoryManager.unloadFactory [⟨"a"⟩, ⟨"a"⟩] ⟨"a"⟩ = ([⟨"a"⟩], true) := by
  rw [FactoryManager.unloadFactory_eq_scanSk]
  decide

/-- C9 amended: `unloadFactory` removes matching entries except that the
entry shifting into a just-spliced position is skipped by the iteration
(so a matching entry immediately following a removed one survives): the
result is a sublist of the input in which every entry with a different ID
is preserved, the returned flag is true exactly when at least one entry
matches, and whenever at most one entry matches — in particular for the
registry's one-wrapper-per-ID lists — every matching entry is removed as
the claim states. -/
theorem unloadFactory_removal_properties (l : List Dworek.LiveFactory)
    (f : Dworek.LiveFactory) :
    ((FactoryManager.unloadFactory l f).1).Sublist l ∧
    (FactoryManager.unloadFactory l f).1.filter (FactoryManager.keepEntry f.id) =
      l.filter (FactoryManager.keepEntry f.id) ∧
    (FactoryManager.unloadFactory l f).2 = l.any (FactoryManager.matchEntry f.id) ∧
    (l.countP (FactoryManager.matchEntry f.id) ≤ 1 →
      (FactoryManager.unloadFactory l f).1 = l.filter (FactoryManager.keepEntry f.id)) := by
  rw [FactoryManager.unloadFactory_eq_scanSk]
  exact ⟨FactoryManager.scanSk_sublist f.id l false,
    FactoryManager.scanSk_filter f.id l false,
    (FactoryManager.scanSk_flag f.id l).1,
    fun h => FactoryManager.scanSk_single f.id l h⟩

theorem unloadFactory_removal_properties_witness :
    (([⟨"a"⟩, ⟨"b"⟩] : List Dworek.LiveFactory).countP
        (FactoryManager.matchEntry (⟨"a"⟩ : Dworek.LiveFactory).id) ≤ 1) ∧
    (FactoryManager.unloadFactory [⟨"a"⟩, ⟨"b"⟩] ⟨"a"⟩).1 =
      ([⟨"a"⟩, ⟨"b"⟩] : List Dworek.LiveFactory).filter
        (FactoryManager.keepEntry (⟨"a"⟩ : Dworek.LiveFactory).id) :=
  ⟨by decide,
    (unloadFactory_removal_properties [⟨"a"⟩, ⟨"b"⟩] ⟨"a"⟩).2.2.2 (by decide)⟩

namespace MLState

theorem queueOf_eq_none {base : List (Id × List Nat)} {k : Id}
    (hk : ∀ p ∈ base, p.1 ≠ k) : queueOf base k = none := by
  induction base with
  | nil => simp [queueOf]
  | cons p rest ih =>
    have hp : p.1 ≠ k := hk p (by simp)
    have hr : ∀ q ∈ rest, q.1 ≠ k := fun q hq => hk q (by simp [hq])
    cases p
    simp only [queueOf, if_neg hp]
    exact ih hr

theorem queueOf_append_self {base : List (Id × List Nat)} {k : Id} (q : List Nat)
    (hk : ∀ p ∈ base, p.1 ≠ k) : queueOf (base ++ [(k, q)]) k = some q := by
  induction base with
  | nil => simp [queueOf]
  | cons p rest ih =>
    have hp : p.1 ≠ k := hk p (by simp)
    have hr : ∀ x ∈ rest, x.1 ≠ k := fun x hx => hk x (by simp [hx])
    cases p
    simp only [List.cons_append, queueOf, if_neg hp]
    exact ih hr

theorem enqueue_append_self {base : List (Id × List Nat)} {k : Id} (q : List Nat)
    (c : Nat) (hk : ∀ p ∈ base, p.1 ≠ k) :
    enqueue (base ++ [(k, q)]) k c = base ++ [(k, q ++ [c])] := by
  induction base with
  | nil => simp [enqueue]
  | cons p rest ih =>
    have hp : p.1 ≠ k := hk p (by simp)
    have hr : ∀ x ∈ rest, x.1 ≠ k := fun x hx => hk x (by simp [hx])
    cases p
    simp only [List.cons_append, enqueue, if_neg hp]
    exact congrArg _ (ih hr)

theorem removeKey_append_self {base : List (Id × List Nat)} {k : Id} (q : List Nat)
    (hk : ∀ p ∈ base, p.1 ≠ k) : removeKey (base ++ [(k, q)]) k = base := by
  unfold removeKey
  rw [List.filter_append]
  have h1 : base.filter (fun p => !(p.1 == k)) = base :=
    List.filter_eq_self.mpr (fun p hp => by simpa using hk p hp)
  have h2 : ([(k, q)] : List (Id × List Nat)).filter (fun p => !(p.1 == k)) = [] := by
    simp
  rw [h1, h2, List.append_nil]

theorem step_load (s : MLState) (key : Id) (c : Nat) :
    s.step (MLEvent.load key c) =
      match queueOf s.inFlight key with
      | some _ => { s with inFlight := enqueue s.inFlight key c }
      | none =>
        { s with
            inFlight := s.inFlight ++ [(key, [c])]
            invocations := s.invocations ++ [key] } := rfl

theorem step_settle (s : MLState) (key : Id) (r : MLResult) :
    s.step (MLEvent.settle key r) =
      match queueOf s.inFlight key with
      | none => s
      | some q =>
        { s with
            inFlight := removeKey s.inFlight key
            delivered := s.delivered ++ q.map (fun c => (c, r)) } := rfl

theorem run_append (s : MLState) (es1 es2 : List MLEvent) :
    run s (es1 ++ es2) = run (run s es1) es2 :=
  List.foldl_append step s es1 es2

theorem run_cons (s : MLState) (e : MLEvent) (es : List MLEvent) :
    run s (e :: es) = run (s.step e) es := rfl

theorem run_single (s : MLState) (e : MLEvent) : run s [e] = s.step e := rfl

theorem run_loads (k : Id) (cs : List Nat) :
    ∀ (base : List (Id × List Nat)) (q : List Nat) (inv : List Id)
      (del : List (Nat × MLResult)), (∀ p ∈ base, p.1 ≠ k) →
      run ⟨base ++ [(k, q)], inv, del⟩ (cs.map (MLEvent.load k)) =
        ⟨base ++ [(k, q ++ cs)], inv, del⟩ := by
  induction cs with
  | nil => intro base q inv del hk; simp [run]
  | cons c cs' ih =>
    intro base q inv del hk
    have hstep : step ⟨base ++ [(k, q)], inv, del⟩ (MLEvent.load k c) =
        ⟨base ++ [(k, q ++ [c])], inv, del⟩ := by
      rw [step_load]
      dsimp only
      rw [queueOf_append_self q hk]
      dsimp only
      rw [enqueue_append_self q c hk]
    rw [List.map_cons, run_cons, hstep, ih base (q ++ [c]) inv del hk,
      List.append_assoc]
    rfl

end MLState

/-- C1: for every factory key, while a load started through the
single-flight loader backing `FactoryManager.loadFactory` is in flight,
any number of further `load` calls for the same key cause the underlying
work function to be invoked exactly once for that cycle (one new entry in
`invocations`), every queued caller is delivered the identical settled
result, the in-flight record is removed on completion, and a new `load`
for the same key after completion invokes the work function again (a
fresh cycle, no memoized result). -/
theorem mutexLoader_single_flight (s : MLState) (k : Id) (c : Nat) (cs : List Nat)
    (r : MLResult) (c' : Nat) (hk : ∀ p ∈ s.inFlight, p.1 ≠ k) :
    (MLState.run s ((c :: cs).map (MLEvent.load k) ++ [MLEvent.settle k r])).invocations =
      s.invocations ++ [k] ∧
    (MLState.run s ((c :: cs).map (MLEvent.load k) ++ [MLEvent.settle k r])).delivered =
      s.delivered ++ (c :: cs).map (fun x => (x, r)) ∧
    (MLState.run s ((c :: cs).map (MLEvent.load k) ++ [MLEvent.settle k r])).inFlight =
      s.inFlight ∧
    (MLState.run (MLState.run s ((c :: cs).map (MLEvent.load k) ++ [MLEvent.settle k r]))
        [MLEvent.load k c']).invocations = s.invocations ++ [k, k] := by
  obtain ⟨fl, inv, del⟩ := s
  simp only at hk
  have h1 : MLState.step ⟨fl, inv, del⟩ (MLEvent.load k c) =
      ⟨fl ++ [(k, [c])], inv ++ [k], del⟩ := by
    rw [MLState.step_load]
    dsimp only
    rw [MLState.queueOf_eq_none hk]
  have h2 : MLState.run ⟨fl, inv, del⟩ ((c :: cs).map (MLEvent.load k)) =
      ⟨fl ++ [(k, c :: cs)], inv ++ [k], del⟩ := by
    rw [List.map_cons, MLState.run_cons, h1,
      MLState.run_loads k cs fl [c] (inv ++ [k]) del hk]
    rfl
  have h3 : MLState.run ⟨fl, inv, del⟩
      ((c :: cs).map (MLEvent.load k) ++ [MLEvent.settle k r]) =
      ⟨fl, inv ++ [k], del ++ (c :: cs).map (fun x => (x, r))⟩ := by
    rw [MLState.run_append, h2, MLState.run_single, MLState.step_settle]
    dsimp only
    rw [MLState.queueOf_append_self (c :: cs) hk]
    dsimp only
    rw [MLState.removeKey_append_self (c :: cs) hk]
  refine ⟨by rw [h3], by rw [h3], by rw [h3], ?_⟩
  rw [h3, MLState.run_single, MLState.step_load]
  dsimp only
  rw [MLState.queueOf_eq_none hk]
  simp

theorem mutexLoader_single_flight_witness :
    (∀ p ∈ (MLState.mk [] [] []).inFlight, p.1 ≠ "k1") ∧
    (MLState.run ⟨[], [], []⟩
        (([0, 1, 2] : List Nat).map (MLEvent.load "k1") ++
          [MLEvent.settle "k1" (Except.ok (some "f1"))])).invocations = [] ++ ["k1"] ∧
    (MLState.run ⟨[], [], []⟩
        (([0, 1, 2] : List Nat).map (MLEvent.load "k1") ++
          [MLEvent.settle "k1" (Except.ok (some "f1"))])).delivered =
      [] ++ ([0, 1, 2] : List Nat).map (fun x => (x, Except.ok (some "f1"))) ∧
    (MLState.run ⟨[], [], []⟩
        (([0, 1, 2] : List Nat).map (MLEvent.load "k1") ++
          [MLEvent.settle "k1" (Except.ok (some "f1"))])).inFlight = [] ∧
    (MLState.run (MLState.run ⟨[], [], []⟩
        (([0, 1, 2] : List Nat).map (MLEvent.load "k1") ++
          [MLEvent.settle "k1" (Except.ok (some "f1"))]))
        [MLEvent.load "k1" 3]).invocations = [] ++ ["k1", "k1"] :=
  ⟨by simp,
    mutexLoader_single_flight ⟨[], [], []⟩ "k1" 0 [1, 2] (Except.ok (some "f1")) 3
      (by simp)⟩

end Dworek
